import Mathlib

/-!
Verification of the bobot persistence core: the MessagePack value codec used
by `RedisStr` (`src/bobot_impl/src/persist/redis.rs`), the redis pipeline
primitives `try_pipe` / `create_list` / `drain_list`, the cache-aside
`CachedQuery::query` engine, and the persisted conversation state machine
whose schema lives in `src/bobot_impl/src/persist/core/`.
-/

set_option autoImplicit false
set_option maxRecDepth 8192

namespace Bobot

/-! ## Big-endian byte helpers (model of the fixed-width integer layouts of
the MessagePack wire format used by `rmp_serde`). -/

/-- Big-endian encoding: `toBE k n` is the `k`-byte big-endian encoding of `n % 256^k`. -/
def toBE : Nat → Nat → List Nat
  | 0, _ => []
  | k + 1, n => (n / 256 ^ k) % 256 :: toBE k n

/-- Reassemble a big-endian byte list into a natural number. -/
def fromBE (bs : List Nat) : Nat :=
  bs.foldl (fun acc b => acc * 256 + b) 0

/-- Read `k` bytes from the front of a stream as a big-endian number. -/
def readBE (k : Nat) (bs : List Nat) : Option (Nat × List Nat) :=
  if k ≤ bs.length then some (fromBE (bs.take k), bs.drop k) else none

theorem toBE_length (k n : Nat) : (toBE k n).length = k := by
  induction k generalizing n with
  | zero => rfl
  | succ k ih => simp [toBE, ih]

theorem fromBE_append_singleton (bs : List Nat) (b : Nat) :
    fromBE (bs ++ [b]) = fromBE bs * 256 + b := by
  simp [fromBE, List.foldl_append]

theorem toBE_succ_snoc (k n : Nat) :
    toBE (k + 1) n = toBE k (n / 256) ++ [n % 256] := by
  induction k generalizing n with
  | zero => simp [toBE]
  | succ k ih =>
    have h1 : toBE (k + 1 + 1) n = (n / 256 ^ (k + 1)) % 256 :: toBE (k + 1) n := rfl
    rw [h1, ih]
    have h2 : toBE (k + 1) (n / 256) = (n / 256 / 256 ^ k) % 256 :: toBE k (n / 256) := rfl
    rw [h2]
    have h3 : n / 256 / 256 ^ k = n / 256 ^ (k + 1) := by
      rw [Nat.div_div_eq_div_mul]
      ring_nf
    rw [h3]
    simp

theorem fromBE_toBE (k n : Nat) (h : n < 256 ^ k) : fromBE (toBE k n) = n := by
  induction k generalizing n with
  | zero =>
    simp [toBE, fromBE]
    omega
  | succ k ih =>
    rw [toBE_succ_snoc, fromBE_append_singleton]
    have hd : n / 256 < 256 ^ k := by
      rw [Nat.div_lt_iff_lt_mul (by norm_num)]
      calc n < 256 ^ (k + 1) := h
        _ = 256 ^ k * 256 := by ring
    rw [ih _ hd]
    omega

theorem readBE_toBE (k n : Nat) (rest : List Nat) (h : n < 256 ^ k) :
    readBE k (toBE k n ++ rest) = some (n, rest) := by
  unfold readBE
  have hl : (toBE k n).length = k := toBE_length k n
  have ht := List.take_left (toBE k n) rest
  have hd2 := List.drop_left (toBE k n) rest
  rw [hl] at ht hd2
  rw [if_pos (by simp [hl]), ht, hd2, fromBE_toBE k n h]

/-! ## MessagePack values and the `rmp_serde` codec used by `RedisStr`

`RedisStr::new` serializes with `rmp_serde::to_vec` and `RedisStr::get`
deserializes with `rmp_serde::from_read` (redis.rs lines 111-134).
`MPValue` is the fragment of the serde data model the repository stores
(integers such as `owner_id: i64`, strings, struct-as-array encodings,
nil/bool for options), and `encodeMP` / `decodeMP` model the MessagePack
wire format rmp uses: most-compact integer formats, fixstr/str8/str16/str32,
fixarray/array16/array32. -/

inductive MPValue where
  | nil : MPValue
  | bool : Bool → MPValue
  | int : Int → MPValue
  | str : List Nat → MPValue
  | arr : List MPValue → MPValue

/-- Most-compact MessagePack integer encoding, as `rmp::encode::write_sint`
chooses it: positive/negative fixint, then uint8/16/32/64 for non-negative
values and int8/16/32/64 (two's complement, big-endian) for negatives. -/
def encodeInt (n : Int) : List Nat :=
  if 0 ≤ n then
    let m := n.toNat
    if m ≤ 127 then [m]
    else if m ≤ 255 then [0xcc, m]
    else if m ≤ 65535 then 0xcd :: toBE 2 m
    else if m < 2 ^ 32 then 0xce :: toBE 4 m
    else 0xcf :: toBE 8 m
  else
    if -32 ≤ n then [(n + 256).toNat]
    else if -128 ≤ n then [0xd0, (n + 256).toNat]
    else if -32768 ≤ n then 0xd1 :: toBE 2 (n + 2 ^ 16).toNat
    else if -(2 ^ 31) ≤ n then 0xd2 :: toBE 4 (n + 2 ^ 32).toNat
    else 0xd3 :: toBE 8 (n + 2 ^ 64).toNat

mutual

/-- MessagePack encoding of a value (model of `rmp_serde::to_vec`). -/
def encodeMP : MPValue → List Nat
  | .nil => [0xc0]
  | .bool false => [0xc2]
  | .bool true => [0xc3]
  | .int n => encodeInt n
  | .str s =>
    if s.length ≤ 31 then (0xa0 + s.length) :: s
    else if s.length ≤ 255 then 0xd9 :: s.length :: s
    else if s.length ≤ 65535 then 0xda :: (toBE 2 s.length ++ s)
    else 0xdb :: (toBE 4 s.length ++ s)
  | .arr l =>
    if l.length ≤ 15 then (0x90 + l.length) :: encodeListMP l
    else if l.length ≤ 65535 then 0xdc :: (toBE 2 l.length ++ encodeListMP l)
    else 0xdd :: (toBE 4 l.length ++ encodeListMP l)

/-- Concatenated encodings of the elements of an array. -/
def encodeListMP : List MPValue → List Nat
  | [] => []
  | v :: vs => encodeMP v ++ encodeListMP vs

end

/-- Read a fixed number of raw bytes as a string payload. -/
def readStr (len : Nat) (bs : List Nat) : Option (MPValue × List Nat) :=
  if len ≤ bs.length then some (.str (bs.take len), bs.drop len) else none

/-- Two's-complement reinterpretation of a `k`-byte unsigned value. -/
def signed (k m : Nat) : Int :=
  if 2 ^ (8 * k - 1) ≤ m then (m : Int) - 2 ^ (8 * k) else (m : Int)

mutual

/-- MessagePack decoding (model of `rmp_serde::from_read`); `fuel` bounds the
nesting depth explored and only exists to make the parser structurally
terminating — every call site supplies enough fuel for its input. -/
def decodeMP : Nat → List Nat → Option (MPValue × List Nat)
  | 0, _ => none
  | _ + 1, [] => none
  | fuel + 1, b :: bs =>
    if b ≤ 0x7f then some (.int b, bs)
    else if 0xe0 ≤ b ∧ b ≤ 0xff then some (.int ((b : Int) - 256), bs)
    else if 0xa0 ≤ b ∧ b ≤ 0xbf then readStr (b - 0xa0) bs
    else if 0x90 ≤ b ∧ b ≤ 0x9f then
      (decodeListMP fuel (b - 0x90) bs).map (fun lr => (.arr lr.1, lr.2))
    else if b = 0xc0 then some (.nil, bs)
    else if b = 0xc2 then some (.bool false, bs)
    else if b = 0xc3 then some (.bool true, bs)
    else if b = 0xcc then (readBE 1 bs).map (fun p => (.int p.1, p.2))
    else if b = 0xcd then (readBE 2 bs).map (fun p => (.int p.1, p.2))
    else if b = 0xce then (readBE 4 bs).map (fun p => (.int p.1, p.2))
    else if b = 0xcf then (readBE 8 bs).map (fun p => (.int p.1, p.2))
    else if b = 0xd0 then (readBE 1 bs).map (fun p => (.int (signed 1 p.1), p.2))
    else if b = 0xd1 then (readBE 2 bs).map (fun p => (.int (signed 2 p.1), p.2))
    else if b = 0xd2 then (readBE 4 bs).map (fun p => (.int (signed 4 p.1), p.2))
    else if b = 0xd3 then (readBE 8 bs).map (fun p => (.int (signed 8 p.1), p.2))
    else if b = 0xd9 then (readBE 1 bs).bind (fun p => readStr p.1 p.2)
    else if b = 0xda then (readBE 2 bs).bind (fun p => readStr p.1 p.2)
    else if b = 0xdb then (readBE 4 bs).bind (fun p => readStr p.1 p.2)
    else if b = 0xdc then
      (readBE 2 bs).bind (fun p =>
        (decodeListMP fuel p.1 p.2).map (fun lr => (.arr lr.1, lr.2)))
    else if b = 0xdd then
      (readBE 4 bs).bind (fun p =>
        (decodeListMP fuel p.1 p.2).map (fun lr => (.arr lr.1, lr.2)))
    else none

/-- Decode `n` consecutive MessagePack values. -/
def decodeListMP : Nat → Nat → List Nat → Option (List MPValue × List Nat)
  | _, 0, bs => some ([], bs)
  | fuel, n + 1, bs =>
    (decodeMP fuel bs).bind (fun vr =>
      (decodeListMP fuel n vr.2).map (fun lr => (vr.1 :: lr.1, lr.2)))

end

/-! Evaluation lemmas for the decoder at each literal format byte: the
guard chain of `decodeMP` is decided by `norm_num` once and for all, so
later proofs never re-decide it. -/

theorem decodeMP_c0 (fuel : Nat) (bs : List Nat) :
    decodeMP (fuel + 1) (0xc0 :: bs) = some (.nil, bs) := by
  rw [decodeMP]; norm_num

theorem decodeMP_c2 (fuel : Nat) (bs : List Nat) :
    decodeMP (fuel + 1) (0xc2 :: bs) = some (.bool false, bs) := by
  rw [decodeMP]; norm_num

theorem decodeMP_c3 (fuel : Nat) (bs : List Nat) :
    decodeMP (fuel + 1) (0xc3 :: bs) = some (.bool true, bs) := by
  rw [decodeMP]; norm_num

theorem decodeMP_cc (fuel : Nat) (bs : List Nat) :
    decodeMP (fuel + 1) (0xcc :: bs) = (readBE 1 bs).map (fun p => (.int p.1, p.2)) := by
  rw [decodeMP]; norm_num

theorem decodeMP_cd (fuel : Nat) (bs : List Nat) :
    decodeMP (fuel + 1) (0xcd :: bs) = (readBE 2 bs).map (fun p => (.int p.1, p.2)) := by
  rw [decodeMP]; norm_num

theorem decodeMP_ce (fuel : Nat) (bs : List Nat) :
    decodeMP (fuel + 1) (0xce :: bs) = (readBE 4 bs).map (fun p => (.int p.1, p.2)) := by
  rw [decodeMP]; norm_num

theorem decodeMP_cf (fuel : Nat) (bs : List Nat) :
    decodeMP (fuel + 1) (0xcf :: bs) = (readBE 8 bs).map (fun p => (.int p.1, p.2)) := by
  rw [decodeMP]; norm_num

theorem decodeMP_d0 (fuel : Nat) (bs : List Nat) :
    decodeMP (fuel + 1) (0xd0 :: bs)
      = (readBE 1 bs).map (fun p => (.int (signed 1 p.1), p.2)) := by
  rw [decodeMP]; norm_num

theorem decodeMP_d1 (fuel : Nat) (bs : List Nat) :
    decodeMP (fuel + 1) (0xd1 :: bs)
      = (readBE 2 bs).map (fun p => (.int (signed 2 p.1), p.2)) := by
  rw [decodeMP]; norm_num

theorem decodeMP_d2 (fuel : Nat) (bs : List Nat) :
    decodeMP (fuel + 1) (0xd2 :: bs)
      = (readBE 4 bs).map (fun p => (.int (signed 4 p.1), p.2)) := by
  rw [decodeMP]; norm_num

theorem decodeMP_d3 (fuel : Nat) (bs : List Nat) :
    decodeMP (fuel + 1) (0xd3 :: bs)
      = (readBE 8 bs).map (fun p => (.int (signed 8 p.1), p.2)) := by
  rw [decodeMP]; norm_num

theorem decodeMP_d9 (fuel : Nat) (bs : List Nat) :
    decodeMP (fuel + 1) (0xd9 :: bs) = (readBE 1 bs).bind (fun p => readStr p.1 p.2) := by
  rw [decodeMP]; norm_num

theorem decodeMP_da (fuel : Nat) (bs : List Nat) :
    decodeMP (fuel + 1) (0xda :: bs) = (readBE 2 bs).bind (fun p => readStr p.1 p.2) := by
  rw [decodeMP]; norm_num

theorem decodeMP_db (fuel : Nat) (bs : List Nat) :
    decodeMP (fuel + 1) (0xdb :: bs) = (readBE 4 bs).bind (fun p => readStr p.1 p.2) := by
  rw [decodeMP]; norm_num

theorem decodeMP_dc (fuel : Nat) (bs : List Nat) :
    decodeMP (fuel + 1) (0xdc :: bs)
      = (readBE 2 bs).bind (fun p =>
          (decodeListMP fuel p.1 p.2).map (fun lr => (.arr lr.1, lr.2))) := by
  rw [decodeMP]; norm_num

theorem decodeMP_dd (fuel : Nat) (bs : List Nat) :
    decodeMP (fuel + 1) (0xdd :: bs)
      = (readBE 4 bs).bind (fun p =>
          (decodeListMP fuel p.1 p.2).map (fun lr => (.arr lr.1, lr.2))) := by
  rw [decodeMP]; norm_num

mutual

/-- Serializability bounds: integers fit the `i64`/`u64` range rmp accepts,
string and array lengths fit the 32-bit MessagePack length fields. -/
def MPValue.wf : MPValue → Prop
  | .nil => True
  | .bool _ => True
  | .int n => -(2 ^ 63) ≤ n ∧ n < 2 ^ 64
  | .str s => s.length < 2 ^ 32 ∧ ∀ b ∈ s, b < 256
  | .arr l => l.length < 2 ^ 32 ∧ MPValue.wfList l

/-- Wellformedness of every element of an array. -/
def MPValue.wfList : List MPValue → Prop
  | [] => True
  | v :: vs => MPValue.wf v ∧ MPValue.wfList vs

end

mutual

/-- Nesting depth of a MessagePack value; the fuel needed by `decodeMP`. -/
def MPValue.depth : MPValue → Nat
  | .nil => 1
  | .bool _ => 1
  | .int _ => 1
  | .str _ => 1
  | .arr l => MPValue.depthList l + 1

/-- Maximum nesting depth over the elements of an array. -/
def MPValue.depthList : List MPValue → Nat
  | [] => 0
  | v :: vs => max (MPValue.depth v) (MPValue.depthList vs)

end



theorem readBE_one (m : Nat) (rest : List Nat) : readBE 1 (m :: rest) = some (m, rest) := by
  simp [readBE, fromBE]

theorem readStr_exact (s rest : List Nat) :
    readStr s.length (s ++ rest) = some (.str s, rest) := by
  unfold readStr
  rw [if_pos (by simp), List.take_left, List.drop_left]

theorem decode_encodeInt (n : Int) (h1 : -(2 ^ 63) ≤ n) (h2 : n < 2 ^ 64)
    (fuel : Nat) (rest : List Nat) :
    decodeMP (fuel + 1) (encodeInt n ++ rest) = some (.int n, rest) := by
  unfold encodeInt
  by_cases hpos : 0 ≤ n
  · rw [if_pos hpos]
    have hm : ((n.toNat : Int)) = n := Int.toNat_of_nonneg hpos
    simp only []
    split_ifs with c1 c2 c3 c4
    · -- positive fixint
      simp only [List.cons_append, List.nil_append]
      rw [decodeMP, if_pos (by omega), hm]
    · -- uint8
      simp only [List.cons_append, List.nil_append]
      rw [decodeMP_cc, readBE_one]
      simp only [Option.map_some']
      rw [hm]
    · -- uint16
      simp only [List.cons_append, List.append_assoc]
      rw [decodeMP_cd, readBE_toBE 2 _ rest (by norm_num; omega)]
      simp only [Option.map_some']
      rw [hm]
    · -- uint32
      simp only [List.cons_append, List.append_assoc]
      rw [decodeMP_ce, readBE_toBE 4 _ rest (by norm_num; omega)]
      simp only [Option.map_some']
      rw [hm]
    · -- uint64
      simp only [List.cons_append, List.append_assoc]
      rw [decodeMP_cf, readBE_toBE 8 _ rest (by norm_num; omega)]
      simp only [Option.map_some']
      rw [hm]
  · rw [if_neg hpos]
    split_ifs with c1 c2 c3 c4
    · -- negative fixint
      simp only [List.cons_append, List.nil_append]
      rw [decodeMP]
      rw [if_neg (by omega)]
      rw [if_pos ⟨by omega, by omega⟩]
      have he : (((n + 256).toNat : Nat) : Int) - 256 = n := by omega
      rw [he]
    · -- int8
      simp only [List.cons_append, List.nil_append]
      rw [decodeMP_d0, readBE_one]
      simp only [Option.map_some']
      unfold signed
      rw [if_pos (by norm_num; omega)]
      have he : (((n + 256).toNat : Nat) : Int) - 2 ^ (8 * 1) = n := by norm_num; omega
      rw [he]
    · -- int16
      simp only [List.cons_append, List.append_assoc]
      rw [decodeMP_d1, readBE_toBE 2 _ rest (by norm_num; omega)]
      simp only [Option.map_some']
      unfold signed
      rw [if_pos (by norm_num; omega)]
      have he : (((n + 2 ^ 16).toNat : Nat) : Int) - 2 ^ (8 * 2) = n := by norm_num; omega
      rw [he]
    · -- int32
      simp only [List.cons_append, List.append_assoc]
      rw [decodeMP_d2, readBE_toBE 4 _ rest (by norm_num; omega)]
      simp only [Option.map_some']
      unfold signed
      rw [if_pos (by norm_num; omega)]
      have he : (((n + 2 ^ 32).toNat : Nat) : Int) - 2 ^ (8 * 4) = n := by norm_num; omega
      rw [he]
    · -- int64
      simp only [List.cons_append, List.append_assoc]
      rw [decodeMP_d3, readBE_toBE 8 _ rest (by norm_num; omega)]
      simp only [Option.map_some']
      unfold signed
      rw [if_pos (by norm_num; omega)]
      have he : (((n + 2 ^ 64).toNat : Nat) : Int) - 2 ^ (8 * 8) = n := by norm_num; omega
      rw [he]

theorem decode_encodeStr (s : List Nat) (h : s.length < 2 ^ 32)
    (fuel : Nat) (rest : List Nat) :
    decodeMP (fuel + 1) (encodeMP (.str s) ++ rest) = some (.str s, rest) := by
  rw [show encodeMP (.str s) =
      (if s.length ≤ 31 then (0xa0 + s.length) :: s
       else if s.length ≤ 255 then 0xd9 :: s.length :: s
       else if s.length ≤ 65535 then 0xda :: (toBE 2 s.length ++ s)
       else 0xdb :: (toBE 4 s.length ++ s)) from rfl]
  split_ifs with c1 c2 c3
  · -- fixstr
    simp only [List.cons_append]
    rw [decodeMP]
    rw [if_neg (by omega), if_neg (by omega), if_pos ⟨by omega, by omega⟩]
    have hx : 0xa0 + s.length - 0xa0 = s.length := by omega
    rw [hx, readStr_exact]
  · -- str8
    simp only [List.cons_append]
    rw [decodeMP_d9, readBE_one]
    simp only [Option.some_bind]
    rw [readStr_exact]
  · -- str16
    simp only [List.cons_append, List.append_assoc]
    rw [decodeMP_da, readBE_toBE 2 _ _ (by norm_num; omega)]
    simp only [Option.some_bind]
    rw [readStr_exact]
  · -- str32
    simp only [List.cons_append, List.append_assoc]
    rw [decodeMP_db, readBE_toBE 4 _ _ (by norm_num; omega)]
    simp only [Option.some_bind]
    rw [readStr_exact]

theorem depth_pos (v : MPValue) : 1 ≤ v.depth := by
  cases v <;> simp [MPValue.depth]

mutual

theorem decode_encodeMP (v : MPValue) (hwf : v.wf) (fuel : Nat)
    (hf : v.depth ≤ fuel) (rest : List Nat) :
    decodeMP fuel (encodeMP v ++ rest) = some (v, rest) := by
  obtain ⟨f, rfl⟩ : ∃ f, fuel = f + 1 := ⟨fuel - 1, by have := depth_pos v; omega⟩
  cases v with
  | nil =>
    rw [show encodeMP .nil = [0xc0] from rfl]
    simp only [List.cons_append, List.nil_append]
    rw [decodeMP_c0]
  | bool b =>
    cases b
    · rw [show encodeMP (.bool false) = [0xc2] from rfl]
      simp only [List.cons_append, List.nil_append]
      rw [decodeMP_c2]
    · rw [show encodeMP (.bool true) = [0xc3] from rfl]
      simp only [List.cons_append, List.nil_append]
      rw [decodeMP_c3]
  | int n =>
    rw [show encodeMP (.int n) = encodeInt n from rfl]
    exact decode_encodeInt n hwf.1 hwf.2 f rest
  | str s =>
    exact decode_encodeStr s hwf.1 f rest
  | arr l =>
    have hlen : l.length < 2 ^ 32 := hwf.1
    have hwl : MPValue.wfList l := hwf.2
    have hdl : MPValue.depthList l ≤ f := by
      have : MPValue.depth (.arr l) = MPValue.depthList l + 1 := rfl
      omega
    rw [show encodeMP (.arr l) =
        (if l.length ≤ 15 then (0x90 + l.length) :: encodeListMP l
         else if l.length ≤ 65535 then 0xdc :: (toBE 2 l.length ++ encodeListMP l)
         else 0xdd :: (toBE 4 l.length ++ encodeListMP l)) from rfl]
    split_ifs with c1 c2
    · simp only [List.cons_append]
      rw [decodeMP]
      rw [if_neg (by omega), if_neg (by omega), if_neg (by omega), if_pos ⟨by omega, by omega⟩]
      have hx : 0x90 + l.length - 0x90 = l.length := by omega
      rw [hx, decode_encodeListMP l hwl f hdl rest]
      rfl
    · simp only [List.cons_append, List.append_assoc]
      rw [decodeMP_dc, readBE_toBE 2 _ _ (by norm_num; omega)]
      simp only [Option.some_bind]
      rw [decode_encodeListMP l hwl f hdl rest]
      rfl
    · simp only [List.cons_append, List.append_assoc]
      rw [decodeMP_dd, readBE_toBE 4 _ _ (by norm_num; omega)]
      simp only [Option.some_bind]
      rw [decode_encodeListMP l hwl f hdl rest]
      rfl

theorem decode_encodeListMP (l : List MPValue) (hwf : MPValue.wfList l) (fuel : Nat)
    (hf : MPValue.depthList l ≤ fuel) (rest : List Nat) :
    decodeListMP fuel l.length (encodeListMP l ++ rest) = some (l, rest) := by
  cases l with
  | nil =>
    rw [show encodeListMP [] = ([] : List Nat) from rfl]
    simp only [List.nil_append, List.length_nil]
    rw [decodeListMP]
  | cons v vs =>
    have h1 : MPValue.depth v ≤ fuel := by
      have : MPValue.depthList (v :: vs) = max (MPValue.depth v) (MPValue.depthList vs) := rfl
      omega
    have h2 : MPValue.depthList vs ≤ fuel := by
      have : MPValue.depthList (v :: vs) = max (MPValue.depth v) (MPValue.depthList vs) := rfl
      omega
    rw [show encodeListMP (v :: vs) = encodeMP v ++ encodeListMP vs from rfl]
    rw [show (v :: vs).length = vs.length + 1 from rfl]
    rw [decodeListMP]
    rw [List.append_assoc]
    rw [decode_encodeMP v hwf.1 fuel h1 (encodeListMP vs ++ rest)]
    simp only [Option.some_bind]
    rw [decode_encodeListMP vs hwf.2 fuel h2 rest]
    rfl

end

theorem encodeInt_length_pos (n : Int) : 0 < (encodeInt n).length := by
  unfold encodeInt
  by_cases h : 0 ≤ n
  · rw [if_pos h]
    simp only []
    split_ifs <;> simp [toBE_length]
  · rw [if_neg h]
    split_ifs <;> simp [toBE_length]

mutual

theorem depth_le_encode_length (v : MPValue) : v.depth ≤ (encodeMP v).length := by
  cases v with
  | nil => simp [MPValue.depth, encodeMP]
  | bool b => cases b <;> simp [MPValue.depth, encodeMP]
  | int n =>
    have h := encodeInt_length_pos n
    rw [show MPValue.depth (.int n) = 1 from rfl,
      show encodeMP (.int n) = encodeInt n from rfl]
    omega
  | str s =>
    rw [show MPValue.depth (.str s) = 1 from rfl]
    rw [show encodeMP (.str s) =
        (if s.length ≤ 31 then (0xa0 + s.length) :: s
         else if s.length ≤ 255 then 0xd9 :: s.length :: s
         else if s.length ≤ 65535 then 0xda :: (toBE 2 s.length ++ s)
         else 0xdb :: (toBE 4 s.length ++ s)) from rfl]
    split_ifs <;> simp
  | arr l =>
    have ih := depthList_le_encodeList_length l
    rw [show MPValue.depth (.arr l) = MPValue.depthList l + 1 from rfl]
    rw [show encodeMP (.arr l) =
        (if l.length ≤ 15 then (0x90 + l.length) :: encodeListMP l
         else if l.length ≤ 65535 then 0xdc :: (toBE 2 l.length ++ encodeListMP l)
         else 0xdd :: (toBE 4 l.length ++ encodeListMP l)) from rfl]
    split_ifs <;> simp [toBE_length] <;> omega

theorem depthList_le_encodeList_length (l : List MPValue) :
    MPValue.depthList l ≤ (encodeListMP l).length := by
  cases l with
  | nil => simp [MPValue.depthList, encodeListMP]
  | cons v vs =>
    have h1 := depth_le_encode_length v
    have h2 := depthList_le_encodeList_length vs
    rw [show MPValue.depthList (v :: vs) = max (MPValue.depth v) (MPValue.depthList vs) from rfl,
      show encodeListMP (v :: vs) = encodeMP v ++ encodeListMP vs from rfl]
    simp only [List.length_append]
    omega

end

/-- Errors of the persistence layer: codec failures (`rmp_serde` decode
errors) and redis infrastructure failures. -/
inductive RErr where
  | codec : String → RErr
  | redis : String → RErr
deriving DecidableEq

/-- Model of `RedisStr` (redis.rs lines 111-134): the opaque byte buffer
produced by `rmp_serde::to_vec` that is written to redis as a single arg. -/
structure RedisStr where
  bytes : List Nat
deriving DecidableEq

/-- Model of `RedisStr::new`: serialize with `rmp_serde::to_vec`. -/
def RedisStr.new (v : MPValue) : Except RErr RedisStr :=
  .ok ⟨encodeMP v⟩

/-- Model of `RedisStr::get`: deserialize with `rmp_serde::from_read`;
a byte layout that does not parse is a hard error. -/
def RedisStr.get (r : RedisStr) : Except RErr MPValue :=
  match decodeMP (r.bytes.length + 1) r.bytes with
  | some (v, _) => .ok v
  | none => .error (.codec "invalid msgpack data")

theorem redisStr_roundtrip_aux (v : MPValue) (hwf : v.wf) :
    RedisStr.get ⟨encodeMP v⟩ = .ok v := by
  have hf : v.depth ≤ (encodeMP v).length + 1 :=
    le_trans (depth_le_encode_length v) (by omega)
  have h := decode_encodeMP v hwf ((encodeMP v).length + 1) hf []
  rw [List.append_nil] at h
  unfold RedisStr.get
  simp only []
  rw [h]

/-- C10: encoding any serializable value with `RedisStr::new` and decoding
the bytes with `RedisStr::get` at the same type succeeds and returns the
original value. -/
theorem redisStr_new_get_roundtrip (v : MPValue) (hwf : v.wf) :
    (RedisStr.new v).bind RedisStr.get = .ok v := by
  rw [show RedisStr.new v = .ok ⟨encodeMP v⟩ from rfl]
  rw [show (Except.ok ⟨encodeMP v⟩ : Except RErr RedisStr).bind RedisStr.get
      = RedisStr.get ⟨encodeMP v⟩ from rfl]
  exact redisStr_roundtrip_aux v hwf

/-- C10 witness: the roundtrip at a concrete nested value. -/
theorem redisStr_new_get_roundtrip_witness :
    (RedisStr.new (.arr [.str [104, 105], .int (-1000), .bool true, .nil])).bind RedisStr.get
      = .ok (.arr [.str [104, 105], .int (-1000), .bool true, .nil]) :=
  redisStr_new_get_roundtrip _ (by
    refine ⟨by norm_num, ?_, ?_, ?_, ?_, ?_⟩ <;> simp [MPValue.wf, MPValue.wfList])

/-! ## Redis list storage and pipelines

Model of the `RedisPool` list operations (redis.rs lines 219-280). The
cache state maps each key to the redis list stored there, head first; an
absent key is the empty list, exactly as redis treats missing list keys.
Only the commands issued by `create_list` are modelled: `DEL` and `LPUSH`. -/

/-- Redis server state restricted to list values. -/
def RedisState := String → List (List Nat)

/-- A single pipelined redis command. -/
inductive RCmd where
  | del : String → RCmd
  | lpush : String → RedisStr → RCmd

/-- Server-side effect of one command: `DEL` empties the key, `LPUSH`
prepends the encoded value at the head of the list. -/
def RCmd.apply : RCmd → RedisState → RedisState
  | .del k, st => fun q => if q = k then [] else st q
  | .lpush k v, st => fun q => if q = k then v.bytes :: st q else st q

/-- A redis pipeline under construction: an atomic marker (MULTI/EXEC) and
the queued commands in dispatch order. -/
structure Pipeline where
  is_atomic : Bool
  cmds : List RCmd

/-- The empty pipeline that `redis::pipe()` starts from. -/
def Pipeline.emptyPipe : Pipeline := ⟨false, []⟩

/-- Model of `Pipeline::atomic`: mark the batch as one indivisible unit. -/
def Pipeline.atomic (p : Pipeline) : Pipeline := { p with is_atomic := true }

/-- Model of `Pipeline::del`: queue a `DEL key` command. -/
def Pipeline.del (p : Pipeline) (key : String) : Pipeline :=
  { p with cmds := p.cmds ++ [.del key] }

/-- Model of `Pipeline::lpush`: queue an `LPUSH key value` command. -/
def Pipeline.lpush (p : Pipeline) (key : String) (v : RedisStr) : Pipeline :=
  { p with cmds := p.cmds ++ [.lpush key v] }

/-- Dispatching a pipeline runs its queued commands in order. -/
def Pipeline.exec (p : Pipeline) (st : RedisState) : RedisState :=
  p.cmds.foldl (fun s c => c.apply s) st

/-- Model of `RedisPool::try_pipe` (redis.rs 270-280): the closure builds a
pipeline starting from the empty one; if the closure fails, its error is
returned and nothing is dispatched, so the server state is untouched;
otherwise the finished pipeline is dispatched. -/
def RedisPool.try_pipe (func : Pipeline → Except RErr Pipeline) (st : RedisState) :
    Except RErr Unit × RedisState :=
  match func Pipeline.emptyPipe with
  | .error e => (.error e, st)
  | .ok p => (.ok (), p.exec st)

/-- The pipeline-building closure of `create_list` (redis.rs 225-232): mark
atomic, `DEL` the key, then encode each item with `RedisStr::new` and
`LPUSH` it; an encoding failure aborts the build. -/
def create_list_builder (key : String) (items : List MPValue) (p : Pipeline) :
    Except RErr Pipeline :=
  items.foldlM (fun q item => (RedisStr.new item).map (fun o => q.lpush key o))
    ((p.atomic).del key)

/-- Model of `RedisPool::create_list` (redis.rs 219-236). -/
def RedisPool.create_list (key : String) (items : List MPValue) (st : RedisState) :
    Except RErr Unit × RedisState :=
  RedisPool.try_pipe (create_list_builder key items) st

/-- Model of `RedisPool::drain_list` (redis.rs 239-253): `LRANGE key 0 -1`
reads the whole list head first, then every element is decoded with
`rmp_serde::from_slice`, collected so that the first decode error aborts
the whole result. `LRANGE` does not modify the server state. -/
def RedisPool.drain_list (key : String) (st : RedisState) :
    Except RErr (List MPValue) × RedisState :=
  ((st key).mapM (fun bs => RedisStr.get ⟨bs⟩), st)

theorem create_list_fold (key : String) (items : List MPValue) :
    ∀ (r : Pipeline),
      items.foldlM (fun q item => (RedisStr.new item).map (fun o => q.lpush key o)) r =
        .ok { r with cmds := r.cmds ++ items.map (fun v => RCmd.lpush key ⟨encodeMP v⟩) } := by
  induction items with
  | nil => intro r; simp; rfl
  | cons v vs ih =>
    intro r
    rw [List.foldlM_cons]
    rw [show (RedisStr.new v).map (fun o => r.lpush key o) = .ok (r.lpush key ⟨encodeMP v⟩)
      from rfl]
    rw [show ((Except.ok (r.lpush key ⟨encodeMP v⟩) : Except RErr Pipeline) >>=
        fun q => vs.foldlM (fun q item => (RedisStr.new item).map (fun o => q.lpush key o)) q)
      = vs.foldlM (fun q item => (RedisStr.new item).map (fun o => q.lpush key o))
          (r.lpush key ⟨encodeMP v⟩) from rfl]
    rw [ih]
    unfold Pipeline.lpush
    simp

theorem create_list_builder_eq (key : String) (items : List MPValue) (p : Pipeline) :
    create_list_builder key items p =
      .ok ⟨true, p.cmds ++ [.del key] ++ items.map (fun v => RCmd.lpush key ⟨encodeMP v⟩)⟩ := by
  unfold create_list_builder
  rw [create_list_fold]
  rfl

theorem exec_lpushes (key : String) (b : Bool) (items : List MPValue) :
    ∀ (st : RedisState),
      Pipeline.exec ⟨b, items.map (fun v => RCmd.lpush key ⟨encodeMP v⟩)⟩ st =
        fun q => if q = key then (items.map encodeMP).reverse ++ st q else st q := by
  induction items with
  | nil =>
    intro st
    funext q
    simp [Pipeline.exec]
  | cons v vs ih =>
    intro st
    have hstep : Pipeline.exec ⟨b, (v :: vs).map (fun v => RCmd.lpush key ⟨encodeMP v⟩)⟩ st =
        Pipeline.exec ⟨b, vs.map (fun v => RCmd.lpush key ⟨encodeMP v⟩)⟩
          (RCmd.apply (.lpush key ⟨encodeMP v⟩) st) := by
      simp [Pipeline.exec]
    rw [hstep, ih]
    funext q
    by_cases hq : q = key
    · subst hq
      rw [if_pos rfl, if_pos rfl]
      rw [show RCmd.apply (.lpush q ⟨encodeMP v⟩) st q = encodeMP v :: st q by
        simp [RCmd.apply]]
      simp
    · rw [if_neg hq, if_neg hq]
      simp [RCmd.apply, hq]

theorem exec_cons (b : Bool) (c : RCmd) (cs : List RCmd) (st : RedisState) :
    Pipeline.exec ⟨b, c :: cs⟩ st = Pipeline.exec ⟨b, cs⟩ (c.apply st) := by
  simp [Pipeline.exec]

theorem create_list_eq (key : String) (items : List MPValue) (st : RedisState) :
    RedisPool.create_list key items st =
      (.ok (), fun q => if q = key then (items.map encodeMP).reverse else st q) := by
  unfold RedisPool.create_list RedisPool.try_pipe
  rw [create_list_builder_eq]
  simp only [show Pipeline.emptyPipe.cmds = [] from rfl, List.nil_append,
    List.singleton_append]
  rw [exec_cons, exec_lpushes]
  have hdel : ∀ q, RCmd.apply (.del key) st q = if q = key then [] else st q :=
    fun q => rfl
  congr 1
  funext q
  by_cases hq : q = key
  · subst hq
    rw [if_pos rfl, if_pos rfl, hdel, if_pos rfl]
    simp
  · rw [if_neg hq, if_neg hq, hdel, if_neg hq]

theorem mapM_get_encode (l : List MPValue) (h : ∀ v ∈ l, MPValue.wf v) :
    (l.map encodeMP).mapM (fun bs => RedisStr.get ⟨bs⟩) = .ok l := by
  induction l with
  | nil => rfl
  | cons v vs ih =>
    rw [List.map_cons, List.mapM_cons]
    rw [redisStr_roundtrip_aux v (h v (List.mem_cons_self v vs))]
    rw [show ∀ (g : MPValue → Except RErr (List MPValue)),
        ((Except.ok v : Except RErr MPValue) >>= g) = g v from fun g => rfl]
    rw [ih (fun x hx => h x (List.mem_cons_of_mem v hx))]
    rfl


/-- C8: if the pipeline-building closure given to `try_pipe` fails, the
error is returned and no command is dispatched, leaving the cache state
unchanged. -/
theorem try_pipe_builder_error (func : Pipeline → Except RErr Pipeline)
    (st : RedisState) (e : RErr) (h : func Pipeline.emptyPipe = .error e) :
    RedisPool.try_pipe func st = (.error e, st) := by
  unfold RedisPool.try_pipe
  rw [h]

/-- C8 witness: a closure that fails (as when an item fails to encode)
leaves a concrete nonempty cache state untouched. -/
theorem try_pipe_builder_error_witness :
    ((fun _ : Pipeline => (.error (.codec "encode failed") : Except RErr Pipeline))
        Pipeline.emptyPipe = .error (.codec "encode failed")) ∧
    RedisPool.try_pipe (fun _ => .error (.codec "encode failed"))
        (fun _ => [[0xc0]])
      = (.error (.codec "encode failed"), fun _ => [[0xc0]]) :=
  ⟨rfl, try_pipe_builder_error _ _ _ rfl⟩

theorem mapM_error_of_mem {α β : Type} (f : α → Except RErr β) (l : List α)
    (h : ∃ a ∈ l, ∃ e, f a = .error e) : ∃ e, l.mapM f = .error e := by
  induction l with
  | nil => simp at h
  | cons a as ih =>
    obtain ⟨x, hx, e, he⟩ := h
    rw [List.mem_cons] at hx
    cases hfa : f a with
    | error e2 =>
      refine ⟨e2, ?_⟩
      rw [List.mapM_cons, hfa]
      rfl
    | ok b =>
      rcases hx with rfl | hx
      · rw [hfa] at he
        exact absurd he (by simp)
      · obtain ⟨e2, h2⟩ := ih ⟨x, hx, e, he⟩
        refine ⟨e2, ?_⟩
        rw [List.mapM_cons, hfa,
          show ((Except.ok b : Except RErr β) >>= fun x =>
            (as.mapM f) >>= fun xs => pure (x :: xs))
            = ((as.mapM f) >>= fun xs => pure (b :: xs)) from rfl, h2]
        rfl

/-- C9: if any element of the list stored at the drained key fails to
decode, `drain_list` returns an error: the whole read aborts with no
partial result. -/
theorem drain_list_aborts_on_decode_error (key : String) (st : RedisState)
    (h : ∃ bs ∈ st key, ∃ e, RedisStr.get ⟨bs⟩ = .error e) :
    ∃ e, (RedisPool.drain_list key st).1 = .error e :=
  mapM_error_of_mem _ _ h

/-- C9 witness: a list holding the unparsable byte `0xc1` makes the whole
drain fail. -/
theorem drain_list_aborts_on_decode_error_witness :
    (∃ bs ∈ (fun _ : String => [[0xc1]]) "k", ∃ e, RedisStr.get ⟨bs⟩ = .error e) ∧
    ∃ e, (RedisPool.drain_list "k" (fun _ => [[0xc1]])).1 = .error e :=
  ⟨⟨[0xc1], by simp, .codec "invalid msgpack data", by simp [RedisStr.get, decodeMP]⟩,
    drain_list_aborts_on_decode_error "k" _
      ⟨[0xc1], by simp, .codec "invalid msgpack data", by simp [RedisStr.get, decodeMP]⟩⟩

/-- C1: `drain_list` never clears the drained key — `LRANGE` leaves the
stored list in place, contradicting both the spec ("reads the entire list
and clears it") and the function comment ("remove and deserialize all
items in a list"): after `create_list "k" [5]`, a first drain yields
`[5]` and a second drain yields `[5]` again instead of `[]`. -/
theorem drain_list_does_not_clear :
    ((RedisPool.drain_list "k"
        (RedisPool.create_list "k" [.int 5] (fun _ => [])).2).1 = .ok [.int 5]) ∧
    ((RedisPool.drain_list "k"
        (RedisPool.drain_list "k"
          (RedisPool.create_list "k" [.int 5] (fun _ => [])).2).2).1
      = .ok [.int 5]) ∧
    ((Except.ok [MPValue.int 5] : Except RErr (List MPValue)) ≠ .ok []) := by
  have h : (RedisPool.drain_list "k"
      (RedisPool.create_list "k" [.int 5] (fun _ => [])).2).1 = .ok [.int 5] := by
    rw [create_list_eq]
    unfold RedisPool.drain_list
    simp only [if_pos rfl]
    norm_num
    rw [show encodeMP (MPValue.int 5) = [5] from rfl]
    simp [List.mapM.loop, RedisStr.get, decodeMP]
  exact ⟨h, h, by simp⟩

/-- C2 counterexample: `create_list` pushes with `LPUSH`, so draining
`[0, 1, 2]` yields the reverse push order `[2, 1, 0]`, not `[0, 1, 2]`. -/
theorem create_list_then_drain_not_push_order :
    ((RedisPool.drain_list "k"
        (RedisPool.create_list "k" [.int 0, .int 1, .int 2] (fun _ => [])).2).1
      = .ok [.int 2, .int 1, .int 0]) ∧
    ((Except.ok [MPValue.int 2, .int 1, .int 0] : Except RErr (List MPValue))
      ≠ .ok [.int 0, .int 1, .int 2]) := by
  refine ⟨?_, by simp⟩
  rw [create_list_eq]
  unfold RedisPool.drain_list
  simp only [if_pos rfl]
  norm_num
  rw [show encodeMP (MPValue.int 0) = [0] from rfl,
    show encodeMP (MPValue.int 1) = [1] from rfl,
    show encodeMP (MPValue.int 2) = [2] from rfl]
  simp [List.mapM.loop, RedisStr.get, decodeMP]
  rfl

/-- C2 (amended): `create_list key items` followed by `drain_list key`
yields exactly `items.reverse` — the items in reverse push order, because
`LPUSH` prepends — regardless of any list previously stored at the key
(`create_list` deletes the prior list first: a full replace, not an
append). -/
theorem create_list_then_drain_list (key : String) (items : List MPValue)
    (st : RedisState) (hwf : ∀ v ∈ items, MPValue.wf v) :
    (RedisPool.create_list key items st).1 = .ok () ∧
    (RedisPool.drain_list key (RedisPool.create_list key items st).2).1
      = .ok items.reverse := by
  rw [create_list_eq]
  refine ⟨rfl, ?_⟩
  unfold RedisPool.drain_list
  simp only [if_pos rfl]
  rw [← List.map_reverse]
  exact mapM_get_encode items.reverse (fun v hv => hwf v (List.mem_reverse.mp hv))

/-- C2 witness: the amended claim at concrete items over a nonempty prior
list at the key. -/
theorem create_list_then_drain_list_witness :
    (∀ v ∈ [MPValue.int 0, .int 1, .int 2], MPValue.wf v) ∧
    ((RedisPool.create_list "k" [.int 0, .int 1, .int 2]
        (fun _ => [[0xc0], [0xc2]])).1 = .ok () ∧
     (RedisPool.drain_list "k"
        (RedisPool.create_list "k" [.int 0, .int 1, .int 2]
          (fun _ => [[0xc0], [0xc2]])).2).1
      = .ok [MPValue.int 0, .int 1, .int 2].reverse) := by
  have hwf : ∀ v ∈ [MPValue.int 0, .int 1, .int 2], MPValue.wf v := by
    intro v hv
    simp only [List.mem_cons, List.not_mem_nil, or_false] at hv
    rcases hv with rfl | rfl | rfl <;> exact ⟨by norm_num, by norm_num⟩
  exact ⟨hwf, create_list_then_drain_list "k" _ _ hwf⟩

/-! ## The cache-aside query engine `CachedQuery` (redis.rs lines 33-101)

The three caller-supplied callbacks receive handles to the cache or the
database; their server-side effects are modelled by threading an explicit
state of the respective backend through each call, and a callback may fail.
The types of the error, the queried value, the database state and the cache
state are parameters, exactly as `CachedQuery` is generic over its
callbacks and value type. -/

/-- Model of the `CachedQuery` struct: `redis_query` is the cache lookup
(`R: CacheCallback<RedisPool>`), `sql_query` the durable lookup
(`S: CacheCallback<DatabaseConnection>`), `miss_query` the cache-populate
callback (`M: CacheMissCallback<RedisPool>`). -/
structure CachedQuery (E T D C : Type) where
  redis_query : String → C → Except E (Option T × C)
  sql_query : String → D → Except E (Option T × D)
  miss_query : String → T → C → Except E (T × C)

/-- Model of `CachedQuery::query` (redis.rs 84-100): try the cache first
and return a hit immediately; otherwise consult the store; if the store
has nothing the result is `none`; otherwise hand the loaded value to
`miss_query` and return its result. Errors propagate at every step. -/
def CachedQuery.query {E T D C : Type} (q : CachedQuery E T D C)
    (db : D) (redis : C) (key : String) : Except E (Option T × D × C) :=
  match q.redis_query key redis with
  | .error e => .error e
  | .ok (some val, redis2) => .ok (some val, db, redis2)
  | .ok (none, redis2) =>
    match q.sql_query key db with
    | .error e => .error e
    | .ok (some val, db2) =>
      match q.miss_query key val redis2 with
      | .error e => .error e
      | .ok (v, redis3) => .ok (some v, db2, redis3)
    | .ok (none, db2) => .ok (none, db2, redis2)

/-- C3: on a cache hit, `query` returns the cached value at once: the
database state is returned untouched and the result does not depend on the
`sql_query` or `miss_query` callbacks, which are never invoked. -/
theorem query_hit_path {E T D C : Type}
    (r : String → C → Except E (Option T × C))
    (s : String → D → Except E (Option T × D))
    (m : String → T → C → Except E (T × C))
    (db : D) (redis : C) (key : String) (val : T) (redis2 : C)
    (h : r key redis = .ok (some val, redis2)) :
    (CachedQuery.mk r s m).query db redis key = .ok (some val, db, redis2) := by
  unfold CachedQuery.query
  simp only [h]

/-- C3 witness: a concrete hit with callbacks over `Nat` states; the store
and populate callbacks are error-raising stubs, which the hit never runs. -/
theorem query_hit_path_witness :
    ((fun (_ : String) (c : Nat) => (.ok (some 7, c + 1) : Except Unit (Option Nat × Nat)))
        "k" 0 = .ok (some 7, 1)) ∧
    (CachedQuery.mk (fun _ c => .ok (some 7, c + 1))
        (fun (_ : String) (_ : Nat) => (.error () : Except Unit (Option Nat × Nat)))
        (fun (_ : String) (_ : Nat) (_ : Nat) => (.error () : Except Unit (Nat × Nat)))).query
      10 0 "k" = .ok (some 7, 10, 1) :=
  ⟨rfl, query_hit_path _ _ _ 10 0 "k" 7 1 rfl⟩

/-- C4: on a miss where the store also has nothing, `query` returns `none`,
the populate callback plays no role, and the cache state is exactly the one
the read left (no cache write occurs for negative results). -/
theorem query_miss_absent_path {E T D C : Type}
    (r : String → C → Except E (Option T × C))
    (s : String → D → Except E (Option T × D))
    (m : String → T → C → Except E (T × C))
    (db : D) (redis : C) (key : String) (db2 : D)
    (hr : r key redis = .ok (none, redis))
    (hs : s key db = .ok (none, db2)) :
    (CachedQuery.mk r s m).query db redis key = .ok (none, db2, redis) := by
  unfold CachedQuery.query
  simp only [hr, hs]

/-- C4 witness: a concrete double miss leaves the cache state `0` untouched
and returns `none`, with an error-raising populate stub never run. -/
theorem query_miss_absent_path_witness :
    ((fun (_ : String) (c : Nat) => (.ok (none, c) : Except Unit (Option Nat × Nat)))
        "k" 0 = .ok (none, 0)) ∧
    ((fun (_ : String) (d : Nat) => (.ok (none, d + 5) : Except Unit (Option Nat × Nat)))
        "k" 10 = .ok (none, 15)) ∧
    (CachedQuery.mk (fun _ c => .ok (none, c))
        (fun _ d => .ok (none, d + 5))
        (fun (_ : String) (_ : Nat) (_ : Nat) => (.error () : Except Unit (Nat × Nat)))).query
      10 0 "k" = .ok (none, 15, 0) :=
  ⟨rfl, rfl, query_miss_absent_path _ _ _ 10 0 "k" 15 rfl rfl⟩

/-- C5: on a miss where the store returns a value `val`, the populate
callback is handed exactly `val` and its result is what `query` returns:
result value, database state and cache state are precisely those produced
by the single `miss_query` call. -/
theorem query_miss_value_path {E T D C : Type}
    (r : String → C → Except E (Option T × C))
    (s : String → D → Except E (Option T × D))
    (m : String → T → C → Except E (T × C))
    (db : D) (redis : C) (key : String) (val : T) (redis2 : C) (db2 : D)
    (w : T) (redis3 : C)
    (hr : r key redis = .ok (none, redis2))
    (hs : s key db = .ok (some val, db2))
    (hm : m key val redis2 = .ok (w, redis3)) :
    (CachedQuery.mk r s m).query db redis key = .ok (some w, db2, redis3) := by
  unfold CachedQuery.query
  simp only [hr, hs, hm]

/-- C5 witness: a concrete miss-then-load; the populate callback transforms
the loaded value `21` to `42` and bumps the cache state, and `query`
returns exactly that. -/
theorem query_miss_value_path_witness :
    ((fun (_ : String) (c : Nat) => (.ok (none, c) : Except Unit (Option Nat × Nat)))
        "k" 0 = .ok (none, 0)) ∧
    ((fun (_ : String) (d : Nat) => (.ok (some 21, d) : Except Unit (Option Nat × Nat)))
        "k" 10 = .ok (some 21, 10)) ∧
    ((fun (_ : String) (v : Nat) (c : Nat) => (.ok (v * 2, c + 1) : Except Unit (Nat × Nat)))
        "k" 21 0 = .ok (42, 1)) ∧
    ((CachedQuery.mk (fun _ c => .ok (none, c))
        (fun _ d => .ok (some 21, d))
        (fun _ v c => .ok (v * 2, c + 1)) : CachedQuery Unit Nat Nat Nat)).query
      10 0 "k" = .ok (some 42, 10, 1) :=
  ⟨rfl, rfl, rfl, query_miss_value_path _ _ _ 10 0 "k" 21 0 10 42 1 rfl rfl rfl⟩

/-! ## The persisted conversation state machine

The relational schema is in src: `conversations.rs`, `conversation_states.rs`
(whose `start_for` column carries `#[sea_orm(unique)]`), and
`conversation_transitions.rs`. The `Conversation` handle and its methods
live in `tg/dialog.rs`, which is not part of the provided sources — they are
modelled from the spec (§4.4) below. Uuid identities are modelled as `Nat`. -/

/-- Mirror of `conversation_states::Model` (conversation_states.rs lines
4-14): a state row with its owning template, prompt content, and the
optional start marker column that the schema declares `unique`. -/
structure ConversationState where
  state_id : Nat
  parent : Nat
  content : String
  start_for : Option Nat
deriving DecidableEq

/-- Mirror of `conversation_transitions::Model` (conversation_transitions.rs
lines 4-13): a directed labeled edge between two states. -/
structure ConversationTransition where
  transition_id : Nat
  start_state : Nat
  end_state : Nat
  triggerphrase : String
deriving DecidableEq

/-- Workflow errors distinguished by the engine (§7): a missing transition
is an expected, recoverable condition; a dangling state reference is a
not-found-class error. -/
inductive WorkflowErr where
  | noSuchTransition
  | stateNotFound
  | startStateNotFound
deriving DecidableEq

/-- Modelled from the spec: the `Conversation` workflow handle of
`tg/dialog.rs` (not under the provided sources) — a template row
(`conversations::Model`: identity, trigger phrase, chat scope) together
with its states, transitions, the instance's current-state pointer, and a
fresh-identity counter standing in for Uuid generation. -/
structure Conversation where
  conversation_id : Nat
  triggerphrase : String
  chat_id : Int
  user_id : Int
  states : List ConversationState
  transitions : List ConversationTransition
  current : Nat
  next_id : Nat
deriving DecidableEq

/-- Modelled from the spec: `Conversation::new` (`construct`, §4.4) creates
the template row and its unique start state, whose `start_for` marker names
the owning template; the instance pointer starts at the start state. -/
def Conversation.new (trigger content : String) (chat user : Int) : Conversation :=
  { conversation_id := 0
    triggerphrase := trigger
    chat_id := chat
    user_id := user
    states := [⟨1, 0, content, some 0⟩]
    transitions := []
    current := 1
    next_id := 2 }

/-- Modelled from the spec: `add_state` appends a node with no start marker
and returns its fresh id. -/
def Conversation.add_state (c : Conversation) (content : String) :
    Conversation × Nat :=
  ({ c with
      states := c.states ++ [⟨c.next_id, c.conversation_id, content, none⟩]
      next_id := c.next_id + 1 },
    c.next_id)

/-- Modelled from the spec: `add_transition` appends a directed labeled
edge; self-loops are permitted. -/
def Conversation.add_transition (c : Conversation) (sourceState destState : Nat)
    (label : String) : Conversation :=
  { c with
      transitions := c.transitions ++ [⟨c.next_id, sourceState, destState, label⟩]
      next_id := c.next_id + 1 }

/-- Modelled from the spec: `get_start` looks the start state up by its
marker column. -/
def Conversation.get_start (c : Conversation) : Except WorkflowErr ConversationState :=
  match c.states.find? (fun s => s.start_for == some c.conversation_id) with
  | some s => .ok s
  | none => .error .startStateNotFound

/-- Modelled from the spec: `transition` finds the edge whose source is the
instance's current state and whose label matches; with no such edge it
fails with the "no such transition" error and the conversation (hence the
pointer) is unchanged; otherwise it moves the pointer to the edge's
destination and returns the destination's prompt text (a missing
destination row is the dangling-reference not-found error). -/
def Conversation.transition (c : Conversation) (label : String) :
    Except WorkflowErr String × Conversation :=
  match c.transitions.find? (fun t => t.start_state == c.current
      && t.triggerphrase == label) with
  | none => (.error .noSuchTransition, c)
  | some t =>
    match c.states.find? (fun s => s.state_id == t.end_state) with
    | none => (.error .stateNotFound, c)
    | some s => (.ok s.content, { c with current := t.end_state })

/-- C6: `transition` keyed on the edge lookup: if no edge leaves the
current state under the given label, the result is the "no such
transition" error and the conversation — in particular its current-state
pointer — is returned unchanged; if such an edge exists (and its
destination row does, as the schema's foreign key guarantees), the pointer
moves to the edge's destination and the destination's prompt text is
returned. -/
theorem conversation_transition_spec (c : Conversation) (label : String) :
    (c.transitions.find? (fun t => t.start_state == c.current
        && t.triggerphrase == label) = none →
      c.transition label = (.error .noSuchTransition, c)) ∧
    (∀ t, c.transitions.find? (fun t => t.start_state == c.current
        && t.triggerphrase == label) = some t →
      ∀ s, c.states.find? (fun s => s.state_id == t.end_state) = some s →
      c.transition label = (.ok s.content, { c with current := t.end_state })) := by
  constructor
  · intro h
    unfold Conversation.transition
    rw [h]
  · intro t ht s hs
    unfold Conversation.transition
    simp only [ht, hs]

/-- A concrete two-state template shaped like the sticker wizard: start
state A (id 1), state B (id 2), one edge (A→B) labeled "x", pointer at A. -/
def convAB : Conversation :=
  (((Conversation.new "/upload" "A" 0 1).add_state "B").1).add_transition 1 2 "x"

/-- C6 witness: on the template with states A, B and edge (A→B, label "x"),
applying the theorem at label "y" yields the "no such transition" error
with the pointer still at A, and at label "x" yields B's text with the
pointer moved to B. -/
theorem conversation_transition_spec_witness :
    convAB.transition "y" = (.error .noSuchTransition, convAB) ∧
    convAB.transition "x" = (.ok "B", { convAB with current := 2 }) :=
  ⟨(conversation_transition_spec convAB "y").1 rfl,
    (conversation_transition_spec convAB "x").2 ⟨3, 1, 2, "x"⟩ rfl ⟨2, 0, "B", none⟩ rfl⟩

/-- Authoring operations that may follow `construct` (§4.4, C7). -/
inductive ConvOp where
  | addState : String → ConvOp
  | addTransition : Nat → Nat → String → ConvOp

/-- Applying one authoring operation to the handle. -/
def Conversation.applyOp (c : Conversation) : ConvOp → Conversation
  | .addState content => (c.add_state content).1
  | .addTransition f t label => c.add_transition f t label

/-- Applying a whole authoring sequence. -/
def Conversation.applyOps (c : Conversation) (ops : List ConvOp) : Conversation :=
  ops.foldl Conversation.applyOp c

/-- The uniqueness constraint the schema places on the marker column
(`#[sea_orm(unique)]` on `start_for`, conversation_states.rs line 13): two
rows with equal non-null `start_for` are the same row. -/
def startForUnique (states : List ConversationState) : Prop :=
  ∀ s1 ∈ states, ∀ s2 ∈ states,
    s1.start_for ≠ none → s1.start_for = s2.start_for → s1 = s2

/-- Shape invariant: the start state created by `construct` heads the state
list and every later state carries no marker. -/
def ConvInv (c : Conversation) : Prop :=
  ∃ s0 rest, c.states = s0 :: rest ∧ s0.start_for = some c.conversation_id ∧
    ∀ s ∈ rest, s.start_for = none

theorem convInv_new (trigger content : String) (chat user : Int) :
    ConvInv (Conversation.new trigger content chat user) :=
  ⟨⟨1, 0, content, some 0⟩, [], rfl, rfl, by simp⟩

theorem convInv_applyOp (c : Conversation) (op : ConvOp) (h : ConvInv c) :
    ConvInv (c.applyOp op) := by
  obtain ⟨s0, rest, hs, hm, hr⟩ := h
  cases op with
  | addState content =>
    refine ⟨s0, rest ++ [⟨c.next_id, c.conversation_id, content, none⟩], ?_, hm, ?_⟩
    · simp [Conversation.applyOp, Conversation.add_state, hs]
    · intro s hsm
      rw [List.mem_append] at hsm
      rcases hsm with hsm | hsm
      · exact hr s hsm
      · simp at hsm
        rw [hsm]
  | addTransition f t label =>
    exact ⟨s0, rest, hs, hm, hr⟩

theorem convInv_applyOps (c : Conversation) (ops : List ConvOp) (h : ConvInv c) :
    ConvInv (c.applyOps ops) := by
  induction ops generalizing c with
  | nil => exact h
  | cons op ops ih => exact ih _ (convInv_applyOp c op h)

/-- C7: for every constructed template — `construct` followed by any
sequence of authoring operations — exactly one state carries the start
marker, the start-state lookup returns that state, and the marker column
satisfies the schema's uniqueness constraint, so no two states of the
template may both carry the start marker. -/
theorem construct_unique_start (trigger content : String) (chat user : Int)
    (ops : List ConvOp) :
    ((((Conversation.new trigger content chat user).applyOps ops).states.filter
        (fun s => s.start_for.isSome)).length = 1) ∧
    (∃ s, ((Conversation.new trigger content chat user).applyOps ops).get_start = .ok s ∧
      s ∈ ((Conversation.new trigger content chat user).applyOps ops).states ∧
      s.start_for
        = some ((Conversation.new trigger content chat user).applyOps ops).conversation_id) ∧
    startForUnique ((Conversation.new trigger content chat user).applyOps ops).states := by
  obtain ⟨s0, rest, hs, hm, hr⟩ :=
    convInv_applyOps _ ops (convInv_new trigger content chat user)
  set c := (Conversation.new trigger content chat user).applyOps ops with hc
  refine ⟨?_, ⟨s0, ?_, ?_, hm⟩, ?_⟩
  · rw [hs]
    rw [List.filter_cons_of_pos (by simp [hm])]
    have : rest.filter (fun s => s.start_for.isSome) = [] := by
      apply List.filter_eq_nil_iff.mpr
      intro s hsm
      simp [hr s hsm]
    rw [this]
    rfl
  · unfold Conversation.get_start
    rw [hs]
    rw [List.find?_cons_of_pos _ (by simp [hm])]
  · rw [hs]
    exact List.mem_cons_self s0 rest
  · intro s1 h1 s2 h2 hne heq
    rw [hs, List.mem_cons] at h1 h2
    have e1 : s1 = s0 := by
      rcases h1 with h1 | h1
      · exact h1
      · exact absurd (hr s1 h1) hne
    have e2 : s2 = s0 := by
      rcases h2 with h2 | h2
      · exact h2
      · rw [e1, hm] at heq
        exact absurd (hr s2 h2) (by rw [← heq]; simp)
    rw [e1, e2]

end Bobot
